import Mathlib

/-!
Verification development for the LAS (Large Average Submatrices) biclustering
algorithm of `biclustlib/algorithms/las.py`.

The Python code operates on numpy float arrays; it is embedded here over the
real numbers.  A matrix is a function of its row and column index with explicit
dimensions.  The global numpy random state is modelled as a stream of natural
numbers `rng : ℕ → ℕ` consumed positionally (one entry per call to the random
primitives); `np.random.choice` on an empty range raises `ValueError`, which is
modelled by an `Except` error value.  The two `while not np.isclose(...)`
loops are embedded with an explicit fuel parameter; all invariant theorems
below are proved for every fuel value, so nothing depends on this artifact.
-/

open Real MeasureTheory Set

/-- A real matrix, indexed by row and column.  Dimensions are carried
separately. -/
def Mat : Type := ℕ → ℕ → ℝ

/-- Modelled from the spec: the `Bicluster` result container (class `Bicluster`
of `biclustlib.models`, not part of the sources) is "an unordered pair of index
sets (row indices, column indices)"; the code stores numpy index arrays, which
are embedded as lists of natural numbers. -/
structure Bicluster where
  rows : List ℕ
  cols : List ℕ

/-- A candidate as produced by one search attempt: the bicluster, its average
value and its significance score (the tuple `b, avg, score` of the code). -/
def Cand : Type := Bicluster × ℝ × ℝ

/-- Error values: `ValueError` raised by `_validate_parameters`, `ValueError`
raised by `np.random.choice` on an empty candidate array, and `ValueError`
raised by `np.random.choice(n, size, replace=False)` with `size > n`.  Python
raises the same exception class in all three cases; they are distinguished here
by their raise site. -/
inductive LasErr where
  | invalidParameter : LasErr
  | emptyChoice : LasErr
  | sampleTooLarge : LasErr
deriving DecidableEq

/-- The predicate `np.isclose(a, b)` with the default tolerances
`rtol = 1e-05`, `atol = 1e-08`: it holds when `|a - b| <= atol + rtol * |b|`. -/
def np_isclose (a b : ℝ) : Prop := |a - b| ≤ 1e-8 + 1e-5 * |b|

noncomputable instance (a b : ℝ) : Decidable (np_isclose a b) :=
  Classical.propDecidable _

/-- The candidate array `np.arange(1, int(np.ceil(dim / 2)))` from which the
constrained size `k` (rows) or `l` (columns) is drawn in
`_find_constrained_bicluster`.  Note `int(np.ceil(dim / 2)) = (dim + 1) / 2`
in natural division, and `np.arange` excludes its upper bound. -/
def sizeCandidates (dim : ℕ) : List ℕ := List.range' 1 ((dim + 1) / 2 - 1)

/-- The call `np.random.choice(arr)`: draws one element of `arr`, raising
`ValueError` when `arr` is empty.  The random draw is modelled by reading the
stream `rng` at the current position `pos` and reducing it modulo the array
length; the position advances by one. -/
def npChoice (arr : List ℕ) (rng : ℕ → ℕ) (pos : ℕ) : Except LasErr (ℕ × ℕ) :=
  if arr = [] then .error .emptyChoice
  else .ok (arr.getD (rng pos % arr.length) 0, pos + 1)

/-- Sampling without replacement: repeatedly draw an element of the remaining
pool (one `rng` read per draw) and remove it.  This is the model of
`np.random.choice(n, size, replace=False)` after the non-emptiness guard. -/
def sampleAux : ℕ → List ℕ → (ℕ → ℕ) → ℕ → List ℕ × ℕ
  | 0, _, _, pos => ([], pos)
  | t + 1, avail, rng, pos =>
      let x := avail.getD (rng pos % avail.length) 0
      let r := sampleAux t (avail.erase x) rng (pos + 1)
      (x :: r.1, r.2)

/-- The call `np.random.choice(n, size, replace=False)`: `size` distinct
values drawn from `{0, ..., n-1}`; raises `ValueError` when `size > n`. -/
def npChoiceNoReplace (n size : ℕ) (rng : ℕ → ℕ) (pos : ℕ) :
    Except LasErr (List ℕ × ℕ) :=
  if n < size then .error .sampleTooLarge
  else .ok (sampleAux size (List.range n) rng pos)

/-- The index list `np.argsort(-sums)` over indices `0, ..., n-1`: indices
ordered by decreasing `sums`.  numpy's default sort does not specify the
relative order of tied entries; this embedding breaks ties by keeping the
smaller index first (stable insertion sort on the descending order). -/
noncomputable def argsortDesc (sums : ℕ → ℝ) (n : ℕ) : List ℕ :=
  List.insertionSort (fun i j => sums j ≤ sums i) (List.range n)

/-- The top-`k` index selection `bn.argpartition(sums, n - k)[-k:]`: `k`
indices carrying the largest `sums` values.  The order and the tie-break among
equal values are unspecified in the code (see the code comment equating it
with `np.argsort(sums)[-k:]`); this embedding takes the first `k` entries of
the descending argsort. -/
noncomputable def topK (k : ℕ) (sums : ℕ → ℝ) (n : ℕ) : List ℕ :=
  (argsortDesc sums n).take k

/-- The call `np.argmax(scores)` over an array of `n` entries: the index of
the first occurrence of the maximum value. -/
noncomputable def argmaxIdx (scoreAt : ℕ → ℝ) (n : ℕ) : ℕ :=
  ((List.range n).drop 1).foldl (fun best i => if scoreAt best < scoreAt i then i else best) 0

/-- The cumulative sum `np.cumsum(sums[order])`: entry `i` is the sum of
`sums` over the first `i + 1` entries of `order`. -/
def cumsumAt (sums : ℕ → ℝ) (order : List ℕ) (i : ℕ) : ℝ :=
  ((order.take (i + 1)).map sums).sum

/-- The sum of the submatrix `data[np.ix_(rows, cols)]`. -/
def matSum (data : Mat) (rows cols : List ℕ) : ℝ :=
  (rows.map (fun r => (cols.map (fun c => data r c)).sum)).sum

/-- The mean `np.mean(data[np.ix_(rows, cols)])`. -/
noncomputable def matMean (data : Mat) (rows cols : List ℕ) : ℝ :=
  matSum data rows cols / ((rows.length : ℝ) * (cols.length : ℝ))

/-- Entry `i` of the array built by `_cum_log_factorial`: the cumulative sum of
`np.log(np.arange(1, n + 1))` with a `0` prepended, i.e. `log(i!)`.  Entry `0`
is `0` because `log 0! = log 1 = 0`. -/
noncomputable def cum_log_factorial (i : ℕ) : ℝ :=
  ∑ t ∈ Finset.Icc 1 i, Real.log t

/-- Entry `j` of the array returned by `_log_combs(n)`, namely
`log_facts[n] - (log_facts[j] + log_facts[::-1][j])`, where the reversed array
has `log_facts[n - j]` at index `j`. -/
noncomputable def log_combs (n j : ℕ) : ℝ :=
  cum_log_factorial n - (cum_log_factorial j + cum_log_factorial (n - j))

/-- Modelled from the spec: the standard normal cumulative distribution
function used by `scipy.stats.norm.logcdf` (external library), written as the
Gaussian integral over the lower tail. -/
noncomputable def stdNormalCDF (x : ℝ) : ℝ :=
  (∫ t in Set.Iic x, Real.exp (-t ^ 2 / 2)) / Real.sqrt (2 * Real.pi)

/-- Modelled from the spec: `norm.logcdf(x)` is "the log of the standard
normal cumulative distribution function" evaluated at `x`. -/
noncomputable def norm_logcdf (x : ℝ) : ℝ := Real.log (stdNormalCDF x)

/-- The batch score function `_scores(range_, k, cumsum, m_log_combs,
n_log_combs)`, as a function of the position `i` in the resulting array:
`avgs = cumsum / (range_ * k)` followed by
`- norm.logcdf(-avgs * np.sqrt(range_ * k)) - m_log_combs - n_log_combs[k-1]`.
The numpy arrays `range_`, `cumsum`, `m_log_combs`, `n_log_combs` are embedded
as functions of the array index. -/
noncomputable def scores (range_ : ℕ → ℝ) (k : ℕ) (cumsum : ℕ → ℝ)
    (m_log_combs n_log_combs : ℕ → ℝ) (i : ℕ) : ℝ :=
  let avgs := cumsum i / (range_ i * (k : ℝ));
  - norm_logcdf (-avgs * Real.sqrt (range_ i * (k : ℝ)))
    - m_log_combs i - n_log_combs (k - 1)

/-- Modelled from the spec: the scalar score formula
`score(k, l, avg) = -logCDF_std_normal(-avg * sqrt(k*l)) - log C(n,k) - log C(m,l)`
for a `k × l` submatrix of average `avg` inside an `n × m` matrix.  This is the
specification-side definition that the batch function `scores` is compared
against. -/
noncomputable def score_spec (n m k l : ℕ) (avg : ℝ) : ℝ :=
  - norm_logcdf (-avg * Real.sqrt ((k : ℝ) * (l : ℝ))) - log_combs n k - log_combs m l

/-- State of the `while` loop of `_find_constrained_bicluster`: the current
row and column index arrays and the averages compared by `np.isclose`.  In the
Python code `rows` is first assigned inside the loop body; since the loop
guard is initially true (`np.isclose(-1.0, 0.0)` is false), the body always
runs at least once.  The initial `rows` is embedded as the empty list. -/
structure CSState where
  rows : List ℕ
  cols : List ℕ
  old_avg : ℝ
  avg : ℝ

/-- One body of the `while` loop of `_find_constrained_bicluster`:
`old_avg = avg`; `rows` becomes the `k` indices with largest column-restricted
sums, `cols` the `l` indices with largest row-restricted sums, and `avg` the
mean of the selected submatrix. -/
noncomputable def csBody (data : Mat) (num_rows num_cols k l : ℕ) (s : CSState) : CSState :=
  let row_sums : ℕ → ℝ := fun r => (s.cols.map (fun c => data r c)).sum
  let rows := topK k row_sums num_rows
  let col_sums : ℕ → ℝ := fun c => (rows.map (fun r => data r c)).sum
  let cols := topK l col_sums num_cols
  ⟨rows, cols, s.avg, matMean data rows cols⟩

/-- The `while not np.isclose(old_avg, avg)` loop of
`_find_constrained_bicluster`, with fuel. -/
noncomputable def csLoop (data : Mat) (num_rows num_cols k l : ℕ) :
    ℕ → CSState → CSState
  | 0, s => s
  | fuel + 1, s =>
      if np_isclose s.old_avg s.avg then s
      else csLoop data num_rows num_cols k l fuel (csBody data num_rows num_cols k l s)

/-- The procedure `_find_constrained_bicluster(data)`: draw `k` and `l` from
the half-dimension ranges, draw `l` initial distinct columns, iterate the
alternating top-`k` / top-`l` selection until the average stabilizes, and
return `Bicluster(rows, cols)`. -/
noncomputable def find_constrained_bicluster (data : Mat) (num_rows num_cols : ℕ)
    (rng : ℕ → ℕ) (pos : ℕ) (fuel : ℕ) : Except LasErr (Bicluster × ℕ) :=
  match npChoice (sizeCandidates num_rows) rng pos with
  | .error e => .error e
  | .ok (k, pos1) =>
    match npChoice (sizeCandidates num_cols) rng pos1 with
    | .error e => .error e
    | .ok (l, pos2) =>
      match npChoiceNoReplace num_cols l rng pos2 with
      | .error e => .error e
      | .ok (cols0, pos3) =>
        let s := csLoop data num_rows num_cols k l fuel ⟨[], cols0, -1, 0⟩
        .ok (⟨s.rows, s.cols⟩, pos3)

/-- State of the `while` loop of `_improve_bicluster`: the bicluster being
improved together with `old_score`, `score` and the loop-carried `avg`.  As
with the constrained search, the loop guard is initially true
(`np.isclose(-1.0, 0.0)` is false) so the body always runs at least once; the
initial `avg` slot (unassigned in Python before the first body) is `0`. -/
structure ImpState where
  rows : List ℕ
  cols : List ℕ
  old_score : ℝ
  score : ℝ
  avg : ℝ

/-- One body of the `while` loop of `_improve_bicluster`: the row pass
(descending argsort of column-restricted row sums, cumulative sums, batch
scores, `rmax = np.argmax`, keep the top `rmax + 1` rows) followed by the
symmetric column pass, then `avg = col_cumsum[cmax] / b.area` and
`score = col_scores[cmax]`. -/
noncomputable def impBody (data : Mat) (num_rows num_cols : ℕ) (s : ImpState) : ImpState :=
  let row_sums : ℕ → ℝ := fun r => (s.cols.map (fun c => data r c)).sum
  let order := argsortDesc row_sums num_rows
  let row_cumsum := cumsumAt row_sums order
  let row_scores := scores (fun i => (i : ℝ) + 1) s.cols.length row_cumsum
    (fun i => log_combs num_rows (i + 1)) (fun i => log_combs num_cols (i + 1))
  let rmax := argmaxIdx row_scores num_rows
  let rows := order.take (rmax + 1)
  let col_sums : ℕ → ℝ := fun c => (rows.map (fun r => data r c)).sum
  let order2 := argsortDesc col_sums num_cols
  let col_cumsum := cumsumAt col_sums order2
  let col_scores := scores (fun i => (i : ℝ) + 1) rows.length col_cumsum
    (fun i => log_combs num_cols (i + 1)) (fun i => log_combs num_rows (i + 1))
  let cmax := argmaxIdx col_scores num_cols
  let cols := order2.take (cmax + 1)
  let avg := col_cumsum cmax / ((rows.length : ℝ) * (cols.length : ℝ))
  ⟨rows, cols, s.score, col_scores cmax, avg⟩

/-- The `while not np.isclose(old_score, score)` loop of
`_improve_bicluster`, with fuel.  The row range `np.arange(1, num_rows + 1)`
appears as the function `fun i => i + 1` of the array position, and the tables
`self._log_combs(n)[1:]` (the count-0 entry discarded) as
`fun i => log_combs n (i + 1)`, inside `impBody`. -/
noncomputable def impLoop (data : Mat) (num_rows num_cols : ℕ) :
    ℕ → ImpState → ImpState
  | 0, s => s
  | fuel + 1, s =>
      if np_isclose s.old_score s.score then s
      else impLoop data num_rows num_cols fuel (impBody data num_rows num_cols s)

/-- The procedure `_improve_bicluster(data, b)`: relax the fixed-size
constraint until the score stabilizes and return `b, avg, score`. -/
noncomputable def improve_bicluster (data : Mat) (num_rows num_cols : ℕ)
    (b : Bicluster) (fuel : ℕ) : Cand :=
  let s := impLoop data num_rows num_cols fuel ⟨b.rows, b.cols, -1, 0, 0⟩
  (⟨s.rows, s.cols⟩, s.avg, s.score)

/-- The procedure `_find_bicluster(data)`: constrained search followed by
size-relaxing refinement. -/
noncomputable def find_bicluster (data : Mat) (num_rows num_cols : ℕ)
    (rng : ℕ → ℕ) (pos : ℕ) (fuel1 fuel2 : ℕ) : Except LasErr (Cand × ℕ) :=
  match find_constrained_bicluster data num_rows num_cols rng pos fuel1 with
  | .error e => .error e
  | .ok (b, pos') => .ok (improve_bicluster data num_rows num_cols b fuel2, pos')

/-- The tail of Python's `max(..., key=itemgetter(-1))` over the generator of
search attempts: fold over the remaining attempts, replacing the current best
only when a later candidate has strictly larger score (so the first maximal
candidate wins, as with Python's `max`). -/
noncomputable def attemptsFold (data : Mat) (num_rows num_cols : ℕ) (rng : ℕ → ℕ)
    (fuel1 fuel2 : ℕ) : ℕ → Cand → ℕ → Except LasErr (Cand × ℕ)
  | 0, best, pos => .ok (best, pos)
  | t + 1, best, pos =>
    match find_bicluster data num_rows num_cols rng pos fuel1 fuel2 with
    | .error e => .error e
    | .ok (c, pos') =>
        attemptsFold data num_rows num_cols rng fuel1 fuel2 t
          (if best.2.2 < c.2.2 then c else best) pos'

/-- The expression
`max((self._find_bicluster(data) for i in range(self.randomized_searches)), key=itemgetter(-1))`:
the first attempt initializes the running best and the remaining
`randomized_searches - 1` attempts are folded over it.  (After parameter
validation `randomized_searches >= 1`, so the generator is non-empty.) -/
noncomputable def slotBest (data : Mat) (num_rows num_cols : ℕ) (rng : ℕ → ℕ)
    (fuel1 fuel2 : ℕ) (randomized_searches : ℕ) (pos : ℕ) : Except LasErr (Cand × ℕ) :=
  match find_bicluster data num_rows num_cols rng pos fuel1 fuel2 with
  | .error e => .error e
  | .ok (c0, pos1) =>
      attemptsFold data num_rows num_cols rng fuel1 fuel2
        (randomized_searches - 1) c0 pos1

/-- The deflation statement `data[np.ix_(best.rows, best.cols)] -= avg`: every
index pair of the selected submatrix receives one subtraction of `avg`.  The
index pairs produced by `np.ix_` are embedded as the list of all
`(r, c)` with `r` in `rows` and `c` in `cols`, and the in-place `-=` as a fold
of pointwise updates. -/
def deflate (m : Mat) (rows cols : List ℕ) (avg : ℝ) : Mat :=
  (rows.flatMap (fun r => cols.map (fun c => (r, c)))).foldl
    (fun acc rc => fun r' c' =>
      if r' = rc.1 ∧ c' = rc.2 then acc r' c' - avg else acc r' c') m

/-- The `for i in range(self.num_biclusters)` loop of `run`, by recursion on
the number of remaining slots: find the best candidate over
`randomized_searches` attempts, stop (returning the accepted list so far) when
its score is below `score_threshold`, otherwise deflate and continue. -/
noncomputable def lasLoop (num_rows num_cols : ℕ) (score_threshold : ℝ)
    (randomized_searches : ℕ) (rng : ℕ → ℕ) (fuel1 fuel2 : ℕ) :
    ℕ → Mat → ℕ → Except LasErr (List Bicluster)
  | 0, _, _ => .ok []
  | remaining + 1, m, pos =>
    match slotBest m num_rows num_cols rng fuel1 fuel2 randomized_searches pos with
    | .error e => .error e
    | .ok ((b, avg, score), pos') =>
      if score < score_threshold then .ok []
      else
        match lasLoop num_rows num_cols score_threshold randomized_searches rng
            fuel1 fuel2 remaining (deflate m b.rows b.cols avg) pos' with
        | .error e => .error e
        | .ok rest => .ok (b :: rest)

/-- The method `run(data)` of `LargeAverageSubmatrices`.  Parameters
`num_biclusters` and `randomized_searches` are Python integers (embedded as
`ℤ`); `_validate_parameters` raises `ValueError` when either is `<= 0`.  The
preprocessing `sklearn.preprocessing.scale` (external library) is taken as an
abstract matrix transformation `scaleFn`; the optional variance-stabilizing
transform `np.sign(data) * np.log(1 + np.abs(data))` is embedded pointwise,
followed by the second `scale` as in the code.  The result `Biclustering(...)`
container is embedded as the list of accepted biclusters. -/
noncomputable def run (num_biclusters randomized_searches : ℤ)
    (score_threshold : ℝ) (transform : Bool) (scaleFn : Mat → Mat) (data : Mat)
    (num_rows num_cols : ℕ) (rng : ℕ → ℕ) (fuel1 fuel2 : ℕ) :
    Except LasErr (List Bicluster) :=
  if num_biclusters ≤ 0 ∨ randomized_searches ≤ 0 then .error .invalidParameter
  else
    let d0 := scaleFn data
    let d : Mat :=
      if transform then
        scaleFn (fun r c => Real.sign (d0 r c) * Real.log (1 + |d0 r c|))
      else d0
    lasLoop num_rows num_cols score_threshold randomized_searches.toNat rng
      fuel1 fuel2 num_biclusters.toNat d 0

/-! Score-engine lemmas. -/

/-- The lower-tail Gaussian integral at `0` is half the full Gaussian
integral, by symmetry of the integrand. -/
theorem integral_exp_neg_sq_half_Iic :
    ∫ t in Set.Iic (0 : ℝ), Real.exp (-t ^ 2 / 2) = Real.sqrt (2 * Real.pi) / 2 := by
  have hfun : (fun t : ℝ => Real.exp (-t ^ 2 / 2))
      = fun t : ℝ => Real.exp (-(1 / 2 : ℝ) * t ^ 2) := by
    funext t
    exact congrArg Real.exp (by ring)
  rw [hfun]
  have h := integral_comp_neg_Iic (0 : ℝ) (fun y : ℝ => Real.exp (-(1 / 2 : ℝ) * y ^ 2))
  simp only [neg_sq, neg_zero] at h
  rw [h, integral_gaussian_Ioi]
  rw [show Real.pi / (1 / 2 : ℝ) = 2 * Real.pi by ring]

/-- The standard normal CDF at `0` is `1/2`. -/
theorem stdNormalCDF_zero : stdNormalCDF 0 = 1 / 2 := by
  unfold stdNormalCDF
  rw [integral_exp_neg_sq_half_Iic]
  have h : Real.sqrt (2 * Real.pi) ≠ 0 := ne_of_gt (Real.sqrt_pos.mpr (by positivity))
  field_simp
  ring

/-- The standard normal log-CDF at `0` is `log(1/2) = -log 2`. -/
theorem norm_logcdf_zero : norm_logcdf 0 = - Real.log 2 := by
  unfold norm_logcdf
  rw [stdNormalCDF_zero, show (1 / 2 : ℝ) = 2⁻¹ by norm_num, Real.log_inv]

/-- Helper: the batch score at a position whose cumulative sum is `0` reduces
to the combinatorial terms plus `-log(1/2) = log 2` from the Gaussian tail. -/
theorem scores_zero_helper (num_rows num_cols j k : ℕ) (hj : 1 ≤ j) (hk : 1 ≤ k) :
    scores (fun i => (i : ℝ) + 1) k (fun _ => 0)
      (fun i => log_combs num_rows (i + 1)) (fun i => log_combs num_cols (i + 1)) (j - 1)
    = Real.log 2 - log_combs num_rows j - log_combs num_cols k := by
  simp only [scores]
  rw [Nat.sub_add_cancel hj, Nat.sub_add_cancel hk]
  rw [zero_div, neg_zero, zero_mul, norm_logcdf_zero]
  ring

/-- Claim C1: for total size `(n, m)`, fixed other-axis count `k >= 1` and
position `j` in `1..n` with cumulative sum `c`, the batch score function of
`_improve_bicluster` (row range `arange(1, n+1)`, log-combination tables with
the count-0 entry discarded) returns at position `j` exactly the scalar score
formula `score(k, l, avg) = -logCDF_std_normal(-avg*sqrt(k*l)) - log C(n,k)
- log C(m,l)` applied with row count `j`, column count `k` and
`avg = c / (j*k)`. -/
theorem scores_batch_eq_scalar (num_rows num_cols k j : ℕ) (cumsum : ℕ → ℝ)
    (hj : 1 ≤ j) (hk : 1 ≤ k) :
    scores (fun i => (i : ℝ) + 1) k cumsum
      (fun i => log_combs num_rows (i + 1)) (fun i => log_combs num_cols (i + 1)) (j - 1)
    = score_spec num_rows num_cols j k (cumsum (j - 1) / ((j : ℝ) * (k : ℝ))) := by
  simp only [scores, score_spec]
  rw [Nat.sub_add_cancel hj, Nat.sub_add_cancel hk]
  have h1 : ((j - 1 : ℕ) : ℝ) + 1 = (j : ℝ) := by
    rw [Nat.cast_sub hj]
    push_cast
    ring
  rw [h1]

/-- Witness for C1 at concrete input: total size `4 x 5`, fixed count `k = 1`,
position `j = 2`, constant cumulative sums `1`. -/
theorem scores_batch_eq_scalar_witness :
    ((1 : ℕ) ≤ 2 ∧ (1 : ℕ) ≤ 1) ∧
    scores (fun i => (i : ℝ) + 1) 1 (fun _ => 1)
      (fun i => log_combs 4 (i + 1)) (fun i => log_combs 5 (i + 1)) (2 - 1)
    = score_spec 4 5 2 1 ((1 : ℝ) / ((2 : ℝ) * (1 : ℝ))) :=
  ⟨⟨by decide, by decide⟩,
    by exact_mod_cast scores_batch_eq_scalar 4 5 1 2 (fun _ => 1) (by decide) (by decide)⟩

/-- Claim C8: the log-combinations table is symmetric, with entry `j` equal to
`logFact(n) - logFact(j) - logFact(n-j)` and `logFact(0) = 0`. -/
theorem log_combs_symm (n j : ℕ) (hj : j ≤ n) :
    log_combs n j = cum_log_factorial n - cum_log_factorial j - cum_log_factorial (n - j)
    ∧ log_combs n j = log_combs n (n - j)
    ∧ cum_log_factorial 0 = 0 := by
  refine ⟨by simp only [log_combs]; ring, ?_, by simp [cum_log_factorial]⟩
  simp only [log_combs]
  rw [Nat.sub_sub_self hj]
  ring

/-- Witness for C8 at `n = 5`, `j = 2`. -/
theorem log_combs_symm_witness :
    (2 ≤ 5) ∧
    (log_combs 5 2 = cum_log_factorial 5 - cum_log_factorial 2 - cum_log_factorial (5 - 2)
      ∧ log_combs 5 2 = log_combs 5 (5 - 2)
      ∧ cum_log_factorial 0 = 0) :=
  ⟨by decide, log_combs_symm 5 2 (by decide)⟩

/-- Claim C3, amended: at average `0` the batch score equals
`-log(0.5) - log C(n,k) - log C(m,l)`, i.e. `log 2 - log C(n,k) - log C(m,l)`;
the Gaussian tail term contributes `-log(0.5)`, not `0`. -/
theorem score_at_zero_average (num_rows num_cols j k : ℕ) (hj : 1 ≤ j) (hk : 1 ≤ k) :
    scores (fun i => (i : ℝ) + 1) k (fun _ => 0)
      (fun i => log_combs num_rows (i + 1)) (fun i => log_combs num_cols (i + 1)) (j - 1)
    = Real.log 2 - log_combs num_rows j - log_combs num_cols k :=
  scores_zero_helper num_rows num_cols j k hj hk

/-- Witness for the amended C3 at total size `4 x 5`, submatrix size `2 x 1`. -/
theorem score_at_zero_average_witness :
    ((1 : ℕ) ≤ 2 ∧ (1 : ℕ) ≤ 1) ∧
    scores (fun i => (i : ℝ) + 1) 1 (fun _ => 0)
      (fun i => log_combs 4 (i + 1)) (fun i => log_combs 5 (i + 1)) (2 - 1)
    = Real.log 2 - log_combs 4 2 - log_combs 5 1 :=
  ⟨⟨by decide, by decide⟩, score_at_zero_average 4 5 2 1 (by decide) (by decide)⟩

/-- Counterexample to C3 as stated: at total size `2 x 2`, submatrix size
`1 x 1` and average `0`, the batch score is not `-log C(2,1) - log C(2,1)`:
the tail term `-log(0.5) = log 2` also contributes. -/
theorem score_at_zero_average_cex :
    scores (fun i => (i : ℝ) + 1) 1 (fun _ => 0)
      (fun i => log_combs 2 (i + 1)) (fun i => log_combs 2 (i + 1)) 0
    ≠ - log_combs 2 1 - log_combs 2 1 := by
  have h0 := scores_zero_helper 2 2 1 1 (by decide) (by decide)
  norm_num at h0
  rw [h0]
  intro h
  have hpos : 0 < Real.log 2 := Real.log_pos one_lt_two
  linarith

/-! Lemmas on the random primitives and index selections. -/

/-- Membership in the constrained-size candidate range. -/
theorem mem_sizeCandidates (dim x : ℕ) :
    x ∈ sizeCandidates dim ↔ 1 ≤ x ∧ x ≤ (dim + 1) / 2 - 1 := by
  unfold sizeCandidates
  rw [List.mem_range']
  constructor
  · rintro ⟨i, hi, rfl⟩
    omega
  · intro hx
    exact ⟨x - 1, by omega, by omega⟩

/-- An in-range `getD` is a member of the list. -/
theorem getD_mem_of_lt (l : List ℕ) (i : ℕ) (h : i < l.length) : l.getD i 0 ∈ l := by
  rw [List.getD_eq_getElem?_getD, List.getElem?_eq_getElem h, Option.getD_some]
  exact List.getElem_mem h

/-- Inversion for `npChoice`: a successful draw is a member of the array and
advances the stream position by one. -/
theorem npChoice_ok (arr : List ℕ) (rng : ℕ → ℕ) (pos x p' : ℕ)
    (h : npChoice arr rng pos = .ok (x, p')) : x ∈ arr ∧ p' = pos + 1 := by
  unfold npChoice at h
  split at h
  · exact absurd h (by simp)
  · rename_i hne
    simp only [Except.ok.injEq, Prod.mk.injEq] at h
    obtain ⟨h1, h2⟩ := h
    subst h1 h2
    have hlen : 0 < arr.length := List.length_pos.mpr hne
    exact ⟨getD_mem_of_lt arr _ (Nat.mod_lt _ hlen), rfl⟩

/-- A draw by `npChoice` succeeds exactly on a non-empty array. -/
theorem npChoice_isOk (arr : List ℕ) (rng : ℕ → ℕ) (pos : ℕ) (hne : arr ≠ []) :
    npChoice arr rng pos = .ok (arr.getD (rng pos % arr.length) 0, pos + 1) := by
  unfold npChoice
  simp [hne]

/-- A draw by `npChoice` from the empty array errors, whatever the random stream. -/
theorem npChoice_nil (rng : ℕ → ℕ) (pos : ℕ) :
    npChoice [] rng pos = .error .emptyChoice := rfl

/-- Claim C4, amended: in every restart of the constrained search the row
count `k` is drawn from the set `{1, ..., ceil(num_rows/2) - 1}` — the upper
bound `ceil(num_rows/2)` is excluded, because `np.arange(1, c)` stops before
`c` — and likewise the column count `l` from `{1, ..., ceil(num_cols/2) - 1}`
(both draws read the same candidate array construction `sizeCandidates`).
Every successful draw lands in this set and every element of the set is
reachable by some random stream; the embedding does not model the uniformity
of the distribution itself. -/
theorem size_draw_support (dim : ℕ) :
    (sizeCandidates dim).toFinset = Finset.Icc 1 ((dim + 1) / 2 - 1)
    ∧ (∀ rng : ℕ → ℕ, ∀ pos k p', npChoice (sizeCandidates dim) rng pos = .ok (k, p') →
        k ∈ Finset.Icc 1 ((dim + 1) / 2 - 1))
    ∧ (∀ k ∈ Finset.Icc 1 ((dim + 1) / 2 - 1),
        ∃ rng : ℕ → ℕ, ∃ p', npChoice (sizeCandidates dim) rng 0 = .ok (k, p')) := by
  have hset : ∀ x, x ∈ sizeCandidates dim ↔ x ∈ Finset.Icc 1 ((dim + 1) / 2 - 1) := by
    intro x
    rw [mem_sizeCandidates, Finset.mem_Icc]
  refine ⟨?_, ?_, ?_⟩
  · ext x
    rw [List.mem_toFinset]
    exact hset x
  · intro rng pos k p' h
    exact (hset k).mp (npChoice_ok _ _ _ _ _ h).1
  · intro k hk
    have hk' := (hset k).mpr hk
    have hne : sizeCandidates dim ≠ [] := List.ne_nil_of_mem hk'
    have hlen : (sizeCandidates dim).length = (dim + 1) / 2 - 1 := by
      simp [sizeCandidates]
    have hkIcc := Finset.mem_Icc.mp hk
    have hidx : k - 1 < (sizeCandidates dim).length := by omega
    have hmod : (k - 1) % (sizeCandidates dim).length = k - 1 := Nat.mod_eq_of_lt hidx
    have hval : (sizeCandidates dim).getD (k - 1) 0 = k := by
      rw [List.getD_eq_getElem?_getD, List.getElem?_eq_getElem hidx, Option.getD_some]
      simp only [sizeCandidates]
      rw [List.getElem_range'_1]
      omega
    refine ⟨fun _ => k - 1, 1, ?_⟩
    rw [npChoice_isOk _ _ _ hne]
    simp only [hmod, hval]

/-- Witness for the amended C4 at `dim = 7` (so `ceil(7/2) = 4` and the
support is `{1, 2, 3}`). -/
theorem size_draw_support_witness :
    (sizeCandidates 7).toFinset = Finset.Icc 1 ((7 + 1) / 2 - 1)
    ∧ (∀ rng : ℕ → ℕ, ∀ pos k p', npChoice (sizeCandidates 7) rng pos = .ok (k, p') →
        k ∈ Finset.Icc 1 ((7 + 1) / 2 - 1))
    ∧ (∀ k ∈ Finset.Icc 1 ((7 + 1) / 2 - 1),
        ∃ rng : ℕ → ℕ, ∃ p', npChoice (sizeCandidates 7) rng 0 = .ok (k, p')) :=
  size_draw_support 7

/-- Counterexample to C4 as stated: for `num_rows = 5` the claim says the row
count is drawn from `{1, ..., ceil(5/2)} = {1, 2, 3}`, but the code's
candidate array `np.arange(1, 3)` is `{1, 2}`: the upper bound is excluded. -/
theorem size_draw_support_cex : (sizeCandidates 5).toFinset ≠ Finset.Icc 1 3 := by
  decide

/-- Well-formed index list: distinct indices, all within the dimension. -/
def goodIdx (n : ℕ) (l : List ℕ) : Prop := l.Nodup ∧ ∀ i ∈ l, i < n

/-- The sample of `sampleAux` consists of distinct elements of the pool, one
per requested draw. -/
theorem sampleAux_spec : ∀ (t : ℕ) (avail : List ℕ) (rng : ℕ → ℕ) (pos : ℕ),
    avail.Nodup → t ≤ avail.length →
    (sampleAux t avail rng pos).1.Nodup
    ∧ (∀ x ∈ (sampleAux t avail rng pos).1, x ∈ avail)
    ∧ (sampleAux t avail rng pos).1.length = t := by
  intro t
  induction t with
  | zero => intro avail rng pos _ _; simp [sampleAux]
  | succ t ih =>
    intro avail rng pos hnd hle
    have hlen0 : 0 < avail.length := by omega
    set x := avail.getD (rng pos % avail.length) 0 with hx
    have hxmem : x ∈ avail := getD_mem_of_lt _ _ (Nat.mod_lt _ hlen0)
    have hnd' : (avail.erase x).Nodup := hnd.erase x
    have hlen' : (avail.erase x).length = avail.length - 1 :=
      List.length_erase_of_mem hxmem
    have hle' : t ≤ (avail.erase x).length := by omega
    obtain ⟨h1, h2, h3⟩ := ih (avail.erase x) rng (pos + 1) hnd' hle'
    simp only [sampleAux, ← hx]
    refine ⟨?_, ?_, ?_⟩
    · rw [List.nodup_cons]
      exact ⟨fun hmem => hnd.not_mem_erase (h2 x hmem), h1⟩
    · intro y hy
      rcases List.mem_cons.mp hy with h | h
      · exact h ▸ hxmem
      · exact (List.erase_sublist x avail).mem (h2 y h)
    · simp [h3]

/-- The descending argsort is a permutation of `range n`. -/
theorem argsortDesc_perm (sums : ℕ → ℝ) (n : ℕ) :
    (argsortDesc sums n).Perm (List.range n) :=
  List.perm_insertionSort _ _

/-- The descending argsort has no duplicate indices. -/
theorem argsortDesc_nodup (sums : ℕ → ℝ) (n : ℕ) : (argsortDesc sums n).Nodup :=
  ((argsortDesc_perm sums n).nodup_iff).mpr (List.nodup_range n)

/-- Membership in the descending argsort is membership in `range n`. -/
theorem argsortDesc_mem (sums : ℕ → ℝ) (n i : ℕ) :
    i ∈ argsortDesc sums n ↔ i < n :=
  ((argsortDesc_perm sums n).mem_iff).trans List.mem_range

/-- The descending argsort has length `n`. -/
theorem argsortDesc_length (sums : ℕ → ℝ) (n : ℕ) :
    (argsortDesc sums n).length = n :=
  ((argsortDesc_perm sums n).length_eq).trans (List.length_range n)

/-- Any prefix of the descending argsort is a well-formed index list. -/
theorem argsortDesc_take_good (sums : ℕ → ℝ) (n m : ℕ) :
    goodIdx n ((argsortDesc sums n).take m) :=
  ⟨(List.take_sublist m _).nodup (argsortDesc_nodup sums n),
    fun i hi => (argsortDesc_mem sums n i).mp (List.take_subset m _ hi)⟩

/-- The top-`k` selection is a well-formed index list. -/
theorem topK_good (k : ℕ) (sums : ℕ → ℝ) (n : ℕ) : goodIdx n (topK k sums n) :=
  argsortDesc_take_good sums n k

/-- The top-`k` selection has `min k n` elements. -/
theorem topK_length (k : ℕ) (sums : ℕ → ℝ) (n : ℕ) :
    (topK k sums n).length = min k n := by
  simp [topK, argsortDesc_length]

/-- A prefix of positive length of the descending argsort is non-empty. -/
theorem argsortDesc_take_ne (sums : ℕ → ℝ) (n m : ℕ) (hm : 1 ≤ m) (hn : 1 ≤ n) :
    (argsortDesc sums n).take m ≠ [] := by
  have h : ((argsortDesc sums n).take m).length = min m n := by
    simp [argsortDesc_length]
  intro hcon
  rw [hcon] at h
  simp at h
  omega

/-! Invariants of the constrained search and the refinement. -/

/-- The loop guard of both while loops is initially true:
`np.isclose(-1.0, 0.0)` is false. -/
theorem np_isclose_init : ¬ np_isclose (-1 : ℝ) 0 := by
  unfold np_isclose
  norm_num

/-- One constrained-search body always produces well-formed row and column
index lists. -/
theorem csBody_good (data : Mat) (nr nc k l : ℕ) (s : CSState) :
    goodIdx nr (csBody data nr nc k l s).rows
    ∧ goodIdx nc (csBody data nr nc k l s).cols := by
  simp only [csBody]
  exact ⟨topK_good _ _ _, topK_good _ _ _⟩

/-- One constrained-search body produces non-empty selections when the target
sizes and dimensions are positive. -/
theorem csBody_ne (data : Mat) (nr nc k l : ℕ) (s : CSState)
    (hk : 1 ≤ k) (hnr : 1 ≤ nr) (hl : 1 ≤ l) (hnc : 1 ≤ nc) :
    (csBody data nr nc k l s).rows ≠ [] ∧ (csBody data nr nc k l s).cols ≠ [] := by
  simp only [csBody]
  exact ⟨argsortDesc_take_ne _ _ _ hk hnr, argsortDesc_take_ne _ _ _ hl hnc⟩

/-- The constrained-search loop preserves well-formedness of the index lists. -/
theorem csLoop_good (data : Mat) (nr nc k l : ℕ) : ∀ (fuel : ℕ) (s : CSState),
    goodIdx nr s.rows → goodIdx nc s.cols →
    goodIdx nr (csLoop data nr nc k l fuel s).rows
    ∧ goodIdx nc (csLoop data nr nc k l fuel s).cols := by
  intro fuel
  induction fuel with
  | zero => intro s hr hc; exact ⟨hr, hc⟩
  | succ fuel ih =>
    intro s hr hc
    simp only [csLoop]
    split
    · exact ⟨hr, hc⟩
    · exact ih _ (csBody_good data nr nc k l s).1 (csBody_good data nr nc k l s).2

/-- The constrained-search loop preserves non-emptiness of the index lists. -/
theorem csLoop_ne (data : Mat) (nr nc k l : ℕ)
    (hk : 1 ≤ k) (hnr : 1 ≤ nr) (hl : 1 ≤ l) (hnc : 1 ≤ nc) :
    ∀ (fuel : ℕ) (s : CSState), s.rows ≠ [] → s.cols ≠ [] →
    (csLoop data nr nc k l fuel s).rows ≠ []
    ∧ (csLoop data nr nc k l fuel s).cols ≠ [] := by
  intro fuel
  induction fuel with
  | zero => intro s hr hc; exact ⟨hr, hc⟩
  | succ fuel ih =>
    intro s hr hc
    simp only [csLoop]
    split
    · exact ⟨hr, hc⟩
    · exact ih _ (csBody_ne data nr nc k l s hk hnr hl hnc).1
        (csBody_ne data nr nc k l s hk hnr hl hnc).2

/-- One refinement body always produces well-formed row and column index
lists. -/
theorem impBody_good (data : Mat) (nr nc : ℕ) (s : ImpState) :
    goodIdx nr (impBody data nr nc s).rows ∧ goodIdx nc (impBody data nr nc s).cols := by
  simp only [impBody]
  exact ⟨argsortDesc_take_good _ _ _, argsortDesc_take_good _ _ _⟩

/-- One refinement body produces non-empty selections when the dimensions are
positive: the selected prefix length `rmax + 1` (resp. `cmax + 1`) is at
least `1`. -/
theorem impBody_ne (data : Mat) (nr nc : ℕ) (s : ImpState)
    (hnr : 1 ≤ nr) (hnc : 1 ≤ nc) :
    (impBody data nr nc s).rows ≠ [] ∧ (impBody data nr nc s).cols ≠ [] := by
  simp only [impBody]
  exact ⟨argsortDesc_take_ne _ _ _ (Nat.succ_le_succ (Nat.zero_le _)) hnr,
    argsortDesc_take_ne _ _ _ (Nat.succ_le_succ (Nat.zero_le _)) hnc⟩

/-- The refinement loop preserves well-formedness of the index lists. -/
theorem impLoop_good (data : Mat) (nr nc : ℕ) : ∀ (fuel : ℕ) (s : ImpState),
    goodIdx nr s.rows → goodIdx nc s.cols →
    goodIdx nr (impLoop data nr nc fuel s).rows
    ∧ goodIdx nc (impLoop data nr nc fuel s).cols := by
  intro fuel
  induction fuel with
  | zero => intro s hr hc; exact ⟨hr, hc⟩
  | succ fuel ih =>
    intro s hr hc
    simp only [impLoop]
    split
    · exact ⟨hr, hc⟩
    · exact ih _ (impBody_good data nr nc s).1 (impBody_good data nr nc s).2

/-- The refinement loop preserves non-emptiness of the index lists. -/
theorem impLoop_ne (data : Mat) (nr nc : ℕ) (hnr : 1 ≤ nr) (hnc : 1 ≤ nc) :
    ∀ (fuel : ℕ) (s : ImpState), s.rows ≠ [] → s.cols ≠ [] →
    (impLoop data nr nc fuel s).rows ≠ [] ∧ (impLoop data nr nc fuel s).cols ≠ [] := by
  intro fuel
  induction fuel with
  | zero => intro s hr hc; exact ⟨hr, hc⟩
  | succ fuel ih =>
    intro s hr hc
    simp only [impLoop]
    split
    · exact ⟨hr, hc⟩
    · exact ih _ (impBody_ne data nr nc s hnr hnc).1 (impBody_ne data nr nc s hnr hnc).2

/-- Inversion for a successful constrained search: the dimensions admit the
draws (so both are at least 3), the returned index lists are well-formed, and
when the loop runs at least once they are non-empty (with `k` and `l` drawn
positive). -/
theorem find_constrained_ok (data : Mat) (nr nc : ℕ) (rng : ℕ → ℕ)
    (pos fuel : ℕ) (b : Bicluster) (p' : ℕ)
    (h : find_constrained_bicluster data nr nc rng pos fuel = .ok (b, p')) :
    3 ≤ nr ∧ 3 ≤ nc ∧ goodIdx nr b.rows ∧ goodIdx nc b.cols
    ∧ (1 ≤ fuel → b.rows ≠ [] ∧ b.cols ≠ []) := by
  unfold find_constrained_bicluster at h
  cases h1 : npChoice (sizeCandidates nr) rng pos with
  | error e => rw [h1] at h; simp at h
  | ok kp =>
    obtain ⟨k, pos1⟩ := kp
    rw [h1] at h
    dsimp only at h
    cases h2 : npChoice (sizeCandidates nc) rng pos1 with
    | error e => rw [h2] at h; simp at h
    | ok lp =>
      obtain ⟨l, pos2⟩ := lp
      rw [h2] at h
      dsimp only at h
      cases h3 : npChoiceNoReplace nc l rng pos2 with
      | error e => rw [h3] at h; simp at h
      | ok cp =>
        obtain ⟨cols0, pos3⟩ := cp
        rw [h3] at h
        dsimp only at h
        simp only [Except.ok.injEq, Prod.mk.injEq] at h
        obtain ⟨hb, hp⟩ := h
        have hkmem := (mem_sizeCandidates nr k).mp (npChoice_ok _ _ _ _ _ h1).1
        have hlmem := (mem_sizeCandidates nc l).mp (npChoice_ok _ _ _ _ _ h2).1
        have hnr : 3 ≤ nr := by omega
        have hnc : 3 ≤ nc := by omega
        have hcols0 : goodIdx nc cols0 := by
          unfold npChoiceNoReplace at h3
          split at h3
          · simp at h3
          · rename_i hge
            simp only [Except.ok.injEq] at h3
            have hc1 : (sampleAux l (List.range nc) rng pos2).1 = cols0 := by
              rw [h3]
            obtain ⟨hnd, hmem, hlen⟩ := sampleAux_spec l (List.range nc) rng pos2
              (List.nodup_range nc) (by rw [List.length_range]; omega)
            rw [hc1] at hnd hmem
            exact ⟨hnd, fun i hi => List.mem_range.mp (hmem i hi)⟩
        subst hb
        refine ⟨hnr, hnc, ?_, ?_, ?_⟩
        · exact (csLoop_good data nr nc k l fuel _
            ⟨List.nodup_nil, by simp⟩ hcols0).1
        · exact (csLoop_good data nr nc k l fuel _
            ⟨List.nodup_nil, by simp⟩ hcols0).2
        · intro hf
          obtain ⟨f, rfl⟩ : ∃ f, fuel = f + 1 := ⟨fuel - 1, by omega⟩
          simp only [csLoop]
          split
          · rename_i hcl
            exact absurd hcl np_isclose_init
          · exact csLoop_ne data nr nc k l (by omega) (by omega) (by omega) (by omega)
              f _ (csBody_ne data nr nc k l _ (by omega) (by omega) (by omega) (by omega)).1
              (csBody_ne data nr nc k l _ (by omega) (by omega) (by omega) (by omega)).2

/-- The refinement preserves well-formedness of the bicluster. -/
theorem improve_good (data : Mat) (nr nc : ℕ) (b : Bicluster) (fuel : ℕ)
    (hr : goodIdx nr b.rows) (hc : goodIdx nc b.cols) :
    goodIdx nr (improve_bicluster data nr nc b fuel).1.rows
    ∧ goodIdx nc (improve_bicluster data nr nc b fuel).1.cols := by
  simp only [improve_bicluster]
  exact impLoop_good data nr nc fuel _ hr hc

/-- The refinement preserves non-emptiness of the bicluster. -/
theorem improve_ne (data : Mat) (nr nc : ℕ) (b : Bicluster) (fuel : ℕ)
    (hnr : 1 ≤ nr) (hnc : 1 ≤ nc) (hr : b.rows ≠ []) (hc : b.cols ≠ []) :
    (improve_bicluster data nr nc b fuel).1.rows ≠ []
    ∧ (improve_bicluster data nr nc b fuel).1.cols ≠ [] := by
  simp only [improve_bicluster]
  exact impLoop_ne data nr nc hnr hnc fuel _ hr hc

/-- Inversion for a successful search attempt: the result is well-formed, and
non-empty when the constrained loop ran at least once. -/
theorem find_bicluster_ok (data : Mat) (nr nc : ℕ) (rng : ℕ → ℕ)
    (pos fuel1 fuel2 : ℕ) (c : Cand) (p' : ℕ)
    (h : find_bicluster data nr nc rng pos fuel1 fuel2 = .ok (c, p')) :
    3 ≤ nr ∧ 3 ≤ nc ∧ goodIdx nr c.1.rows ∧ goodIdx nc c.1.cols
    ∧ (1 ≤ fuel1 → c.1.rows ≠ [] ∧ c.1.cols ≠ []) := by
  unfold find_bicluster at h
  cases h1 : find_constrained_bicluster data nr nc rng pos fuel1 with
  | error e => rw [h1] at h; simp at h
  | ok bp =>
    obtain ⟨b, pb⟩ := bp
    rw [h1] at h
    dsimp only at h
    simp only [Except.ok.injEq, Prod.mk.injEq] at h
    obtain ⟨hc, hp⟩ := h
    obtain ⟨hnr, hnc, hbr, hbc, hne⟩ := find_constrained_ok _ _ _ _ _ _ _ _ h1
    subst hc
    refine ⟨hnr, hnc, (improve_good data nr nc b fuel2 hbr hbc).1,
      (improve_good data nr nc b fuel2 hbr hbc).2, ?_⟩
    intro hf
    exact improve_ne data nr nc b fuel2 (by omega) (by omega) (hne hf).1 (hne hf).2

/-! Success and error characterizations of the search pipeline. -/

/-- The size range is non-empty as soon as the dimension is at least 3. -/
theorem sizeCandidates_ne_nil (dim : ℕ) (h : 3 ≤ dim) : sizeCandidates dim ≠ [] := by
  have hlen : (sizeCandidates dim).length = (dim + 1) / 2 - 1 := by
    simp [sizeCandidates]
  intro hcon
  rw [hcon] at hlen
  simp at hlen
  omega

/-- The size range is empty exactly when the dimension is at most 2 (this is
the `np.arange(1, int(np.ceil(dim / 2)))` array). -/
theorem sizeCandidates_eq_nil_iff (dim : ℕ) : sizeCandidates dim = [] ↔ dim ≤ 2 := by
  constructor
  · intro h
    by_contra hgt
    exact sizeCandidates_ne_nil dim (by omega) h
  · intro h
    have : (dim + 1) / 2 - 1 = 0 := by omega
    simp [sizeCandidates, this]

/-- Sampling without replacement succeeds when the requested size fits. -/
theorem npChoiceNoReplace_isOk (n size : ℕ) (rng : ℕ → ℕ) (pos : ℕ) (h : size ≤ n) :
    npChoiceNoReplace n size rng pos = .ok (sampleAux size (List.range n) rng pos) := by
  unfold npChoiceNoReplace
  rw [if_neg (by omega)]

/-- The constrained search succeeds whenever both dimensions are at least 3. -/
theorem find_constrained_isOk (data : Mat) (nr nc : ℕ) (rng : ℕ → ℕ)
    (pos fuel : ℕ) (hnr : 3 ≤ nr) (hnc : 3 ≤ nc) :
    ∃ b p', find_constrained_bicluster data nr nc rng pos fuel = .ok (b, p') := by
  cases hres : find_constrained_bicluster data nr nc rng pos fuel with
  | ok bp => exact ⟨bp.1, bp.2, by simp [hres]⟩
  | error e =>
    exfalso
    unfold find_constrained_bicluster at hres
    rw [npChoice_isOk _ _ _ (sizeCandidates_ne_nil nr hnr)] at hres
    dsimp only at hres
    rw [npChoice_isOk _ _ _ (sizeCandidates_ne_nil nc hnc)] at hres
    dsimp only at hres
    have hlen : 0 < (sizeCandidates nc).length :=
      List.length_pos.mpr (sizeCandidates_ne_nil nc hnc)
    have hmem := getD_mem_of_lt (sizeCandidates nc)
      (rng (pos + 1) % (sizeCandidates nc).length) (Nat.mod_lt _ hlen)
    have hb := (mem_sizeCandidates nc _).mp hmem
    rw [npChoiceNoReplace_isOk nc
      ((sizeCandidates nc).getD (rng (pos + 1) % (sizeCandidates nc).length) 0)
      rng (pos + 1 + 1) (by omega)] at hres
    dsimp only at hres
    exact absurd hres (by simp)

/-- A search attempt succeeds whenever both dimensions are at least 3. -/
theorem find_bicluster_isOk (data : Mat) (nr nc : ℕ) (rng : ℕ → ℕ)
    (pos fuel1 fuel2 : ℕ) (hnr : 3 ≤ nr) (hnc : 3 ≤ nc) :
    ∃ c p', find_bicluster data nr nc rng pos fuel1 fuel2 = .ok (c, p') := by
  obtain ⟨b, p', h⟩ := find_constrained_isOk data nr nc rng pos fuel1 hnr hnc
  refine ⟨improve_bicluster data nr nc b fuel2, p', ?_⟩
  unfold find_bicluster
  rw [h]

/-- The running best of `attemptsFold` satisfies any property enjoyed by the
initial best and by every successful search attempt. -/
theorem attemptsFold_prop (data : Mat) (nr nc : ℕ) (rng : ℕ → ℕ)
    (fuel1 fuel2 : ℕ) (P : Cand → Prop)
    (hfind : ∀ pos c p', find_bicluster data nr nc rng pos fuel1 fuel2 = .ok (c, p') → P c) :
    ∀ (t : ℕ) (best : Cand) (pos : ℕ) (c : Cand) (p' : ℕ), P best →
      attemptsFold data nr nc rng fuel1 fuel2 t best pos = .ok (c, p') → P c := by
  intro t
  induction t with
  | zero =>
    intro best pos c p' hb h
    unfold attemptsFold at h
    simp only [Except.ok.injEq, Prod.mk.injEq] at h
    exact h.1 ▸ hb
  | succ t ih =>
    intro best pos c p' hb h
    unfold attemptsFold at h
    cases h1 : find_bicluster data nr nc rng pos fuel1 fuel2 with
    | error e => rw [h1] at h; simp at h
    | ok cp =>
      obtain ⟨c1, pos1⟩ := cp
      rw [h1] at h
      dsimp only at h
      have hc1 := hfind pos c1 pos1 h1
      by_cases hlt : best.2.2 < c1.2.2
      · rw [if_pos hlt] at h
        exact ih c1 pos1 c p' hc1 h
      · rw [if_neg hlt] at h
        exact ih best pos1 c p' hb h

/-- The attempts fold succeeds whenever both dimensions are at least 3. -/
theorem attemptsFold_isOk (data : Mat) (nr nc : ℕ) (rng : ℕ → ℕ)
    (fuel1 fuel2 : ℕ) (hnr : 3 ≤ nr) (hnc : 3 ≤ nc) :
    ∀ (t : ℕ) (best : Cand) (pos : ℕ),
      ∃ c p', attemptsFold data nr nc rng fuel1 fuel2 t best pos = .ok (c, p') := by
  intro t
  induction t with
  | zero => intro best pos; exact ⟨best, pos, rfl⟩
  | succ t ih =>
    intro best pos
    obtain ⟨c1, pos1, h1⟩ := find_bicluster_isOk data nr nc rng pos fuel1 fuel2 hnr hnc
    obtain ⟨c, p', h⟩ := ih (if best.2.2 < c1.2.2 then c1 else best) pos1
    refine ⟨c, p', ?_⟩
    unfold attemptsFold
    rw [h1]
    dsimp only
    exact h

/-- A successful slot best is well-formed and (when the constrained loop runs
at least once) non-empty. -/
theorem slotBest_props (data : Mat) (nr nc : ℕ) (rng : ℕ → ℕ)
    (fuel1 fuel2 rs pos : ℕ) (c : Cand) (p' : ℕ)
    (h : slotBest data nr nc rng fuel1 fuel2 rs pos = .ok (c, p')) :
    goodIdx nr c.1.rows ∧ goodIdx nc c.1.cols
    ∧ (1 ≤ fuel1 → c.1.rows ≠ [] ∧ c.1.cols ≠ []) := by
  unfold slotBest at h
  cases h1 : find_bicluster data nr nc rng pos fuel1 fuel2 with
  | error e => rw [h1] at h; simp at h
  | ok cp =>
    obtain ⟨c0, pos1⟩ := cp
    rw [h1] at h
    dsimp only at h
    have h0 := find_bicluster_ok _ _ _ _ _ _ _ _ _ h1
    exact attemptsFold_prop data nr nc rng fuel1 fuel2
      (fun c => goodIdx nr c.1.rows ∧ goodIdx nc c.1.cols
        ∧ (1 ≤ fuel1 → c.1.rows ≠ [] ∧ c.1.cols ≠ []))
      (fun pos c p' hfb =>
        let z := find_bicluster_ok _ _ _ _ _ _ _ _ _ hfb
        ⟨z.2.2.1, z.2.2.2.1, z.2.2.2.2⟩)
      (rs - 1) c0 pos1 c p' ⟨h0.2.2.1, h0.2.2.2.1, h0.2.2.2.2⟩ h

/-- The slot best succeeds whenever both dimensions are at least 3. -/
theorem slotBest_isOk (data : Mat) (nr nc : ℕ) (rng : ℕ → ℕ)
    (fuel1 fuel2 rs pos : ℕ) (hnr : 3 ≤ nr) (hnc : 3 ≤ nc) :
    ∃ c p', slotBest data nr nc rng fuel1 fuel2 rs pos = .ok (c, p') := by
  obtain ⟨c0, pos1, h1⟩ := find_bicluster_isOk data nr nc rng pos fuel1 fuel2 hnr hnc
  obtain ⟨c, p', h⟩ := attemptsFold_isOk data nr nc rng fuel1 fuel2 hnr hnc (rs - 1) c0 pos1
  refine ⟨c, p', ?_⟩
  unfold slotBest
  rw [h1]
  dsimp only
  exact h

/-! Error classification: the search pipeline only raises the two
`np.random.choice` errors, never the parameter-validation error. -/

/-- A draw by `npChoice` can only fail with the empty-choice error. -/
theorem npChoice_error (arr : List ℕ) (rng : ℕ → ℕ) (pos : ℕ) (e : LasErr)
    (h : npChoice arr rng pos = .error e) : e = .emptyChoice := by
  unfold npChoice at h
  split at h
  · simp only [Except.error.injEq] at h
    exact h.symm
  · simp at h

/-- Sampling without replacement can only fail with the oversized-sample error. -/
theorem npChoiceNoReplace_error (n size : ℕ) (rng : ℕ → ℕ) (pos : ℕ) (e : LasErr)
    (h : npChoiceNoReplace n size rng pos = .error e) : e = .sampleTooLarge := by
  unfold npChoiceNoReplace at h
  split at h
  · simp only [Except.error.injEq] at h
    exact h.symm
  · simp at h

/-- The constrained search never raises the parameter-validation error. -/
theorem find_constrained_error (data : Mat) (nr nc : ℕ) (rng : ℕ → ℕ)
    (pos fuel : ℕ) (e : LasErr)
    (h : find_constrained_bicluster data nr nc rng pos fuel = .error e) :
    e ≠ .invalidParameter := by
  unfold find_constrained_bicluster at h
  cases h1 : npChoice (sizeCandidates nr) rng pos with
  | error e1 =>
    rw [h1] at h
    dsimp only at h
    simp only [Except.error.injEq] at h
    subst h
    rw [npChoice_error _ _ _ _ h1]
    simp
  | ok kp =>
    obtain ⟨k, pos1⟩ := kp
    rw [h1] at h
    dsimp only at h
    cases h2 : npChoice (sizeCandidates nc) rng pos1 with
    | error e2 =>
      rw [h2] at h
      dsimp only at h
      simp only [Except.error.injEq] at h
      subst h
      rw [npChoice_error _ _ _ _ h2]
      simp
    | ok lp =>
      obtain ⟨l, pos2⟩ := lp
      rw [h2] at h
      dsimp only at h
      cases h3 : npChoiceNoReplace nc l rng pos2 with
      | error e3 =>
        rw [h3] at h
        dsimp only at h
        simp only [Except.error.injEq] at h
        subst h
        rw [npChoiceNoReplace_error _ _ _ _ _ h3]
        simp
      | ok cp =>
        rw [h3] at h
        dsimp only at h
        simp at h

/-- A search attempt never raises the parameter-validation error. -/
theorem find_bicluster_error (data : Mat) (nr nc : ℕ) (rng : ℕ → ℕ)
    (pos fuel1 fuel2 : ℕ) (e : LasErr)
    (h : find_bicluster data nr nc rng pos fuel1 fuel2 = .error e) :
    e ≠ .invalidParameter := by
  unfold find_bicluster at h
  cases h1 : find_constrained_bicluster data nr nc rng pos fuel1 with
  | error e1 =>
    rw [h1] at h
    dsimp only at h
    simp only [Except.error.injEq] at h
    exact h ▸ find_constrained_error _ _ _ _ _ _ _ h1
  | ok bp =>
    rw [h1] at h
    dsimp only at h
    simp at h

/-- The attempts fold never raises the parameter-validation error. -/
theorem attemptsFold_error (data : Mat) (nr nc : ℕ) (rng : ℕ → ℕ)
    (fuel1 fuel2 : ℕ) : ∀ (t : ℕ) (best : Cand) (pos : ℕ) (e : LasErr),
    attemptsFold data nr nc rng fuel1 fuel2 t best pos = .error e →
    e ≠ .invalidParameter := by
  intro t
  induction t with
  | zero => intro best pos e h; simp [attemptsFold] at h
  | succ t ih =>
    intro best pos e h
    unfold attemptsFold at h
    cases h1 : find_bicluster data nr nc rng pos fuel1 fuel2 with
    | error e1 =>
      rw [h1] at h
      dsimp only at h
      simp only [Except.error.injEq] at h
      exact h ▸ find_bicluster_error _ _ _ _ _ _ _ _ h1
    | ok cp =>
      obtain ⟨c1, pos1⟩ := cp
      rw [h1] at h
      dsimp only at h
      exact ih _ _ _ h

/-- The slot search never raises the parameter-validation error. -/
theorem slotBest_error (data : Mat) (nr nc : ℕ) (rng : ℕ → ℕ)
    (fuel1 fuel2 rs pos : ℕ) (e : LasErr)
    (h : slotBest data nr nc rng fuel1 fuel2 rs pos = .error e) :
    e ≠ .invalidParameter := by
  unfold slotBest at h
  cases h1 : find_bicluster data nr nc rng pos fuel1 fuel2 with
  | error e1 =>
    rw [h1] at h
    dsimp only at h
    simp only [Except.error.injEq] at h
    exact h ▸ find_bicluster_error _ _ _ _ _ _ _ _ h1
  | ok cp =>
    obtain ⟨c0, pos1⟩ := cp
    rw [h1] at h
    dsimp only at h
    exact attemptsFold_error _ _ _ _ _ _ _ _ _ _ h

/-- The extraction loop never raises the parameter-validation error. -/
theorem lasLoop_error (nr nc : ℕ) (θ : ℝ) (rs : ℕ) (rng : ℕ → ℕ)
    (fuel1 fuel2 : ℕ) : ∀ (r : ℕ) (m : Mat) (pos : ℕ) (e : LasErr),
    lasLoop nr nc θ rs rng fuel1 fuel2 r m pos = .error e →
    e ≠ .invalidParameter := by
  intro r
  induction r with
  | zero => intro m pos e h; simp [lasLoop] at h
  | succ r ih =>
    intro m pos e h
    unfold lasLoop at h
    cases h1 : slotBest m nr nc rng fuel1 fuel2 rs pos with
    | error e1 =>
      rw [h1] at h
      dsimp only at h
      simp only [Except.error.injEq] at h
      exact h ▸ slotBest_error _ _ _ _ _ _ _ _ _ h1
    | ok cp =>
      obtain ⟨c, pos'⟩ := cp
      obtain ⟨b, a, s⟩ := c
      rw [h1] at h
      dsimp only at h
      by_cases hs : s < θ
      · rw [if_pos hs] at h
        simp at h
      · rw [if_neg hs] at h
        cases h2 : lasLoop nr nc θ rs rng fuel1 fuel2 r (deflate m b.rows b.cols a) pos' with
        | error e2 =>
          rw [h2] at h
          dsimp only at h
          simp only [Except.error.injEq] at h
          exact h ▸ ih _ _ _ h2
        | ok rest =>
          rw [h2] at h
          dsimp only at h
          simp at h

/-! Deflation. -/

/-- Folding the pointwise subtraction over a duplicate-free list of index
pairs subtracts `a` exactly once at each listed cell and leaves every other
cell unchanged. -/
theorem foldl_sub_apply (a : ℝ) : ∀ (L : List (ℕ × ℕ)), L.Nodup →
    ∀ (m : Mat) (r c : ℕ),
    (L.foldl (fun acc rc => fun r' c' =>
      if r' = rc.1 ∧ c' = rc.2 then acc r' c' - a else acc r' c') m) r c
    = if (r, c) ∈ L then m r c - a else m r c := by
  intro L
  induction L with
  | nil => intro _ m r c; simp
  | cons rc L ih =>
    intro hnd m r c
    have hrcL : rc ∉ L := (List.nodup_cons.mp hnd).1
    rw [List.foldl_cons, ih (List.nodup_cons.mp hnd).2]
    by_cases hmem : (r, c) ∈ L
    · have hne : ¬(r = rc.1 ∧ c = rc.2) := by
        rintro ⟨h1, h2⟩
        exact hrcL ((Prod.ext h1 h2 : (r, c) = rc) ▸ hmem)
      rw [if_pos hmem, if_neg hne, if_pos (List.mem_cons_of_mem rc hmem)]
    · rw [if_neg hmem]
      by_cases heq : r = rc.1 ∧ c = rc.2
      · rw [if_pos heq, if_pos (show (r, c) ∈ rc :: L by
          rw [(Prod.ext heq.1 heq.2 : (r, c) = rc)]
          exact List.mem_cons_self rc L)]
      · rw [if_neg heq, if_neg (show (r, c) ∉ rc :: L by
          intro hcon
          rcases List.mem_cons.mp hcon with h | h
          · exact heq ⟨congrArg Prod.fst h, congrArg Prod.snd h⟩
          · exact hmem h)]

/-- Deflation acts pointwise: with duplicate-free row and column index lists,
exactly the cells of the selected submatrix are decreased by `a`, once each,
and all other cells are unchanged. -/
theorem deflate_apply (m : Mat) (rows cols : List ℕ) (a : ℝ)
    (hr : rows.Nodup) (hc : cols.Nodup) (r c : ℕ) :
    deflate m rows cols a r c = if r ∈ rows ∧ c ∈ cols then m r c - a else m r c := by
  unfold deflate
  have hL : (rows.flatMap fun r => cols.map fun c => (r, c)) = rows ×ˢ cols := rfl
  rw [hL]
  refine (foldl_sub_apply a (rows ×ˢ cols) (hr.product hc) m r c).trans ?_
  simp only [List.mem_product]

/-! Extraction-loop lemmas. -/

/-- Structure of a successful extraction loop: at most `r` biclusters; every
returned bicluster was the best candidate of its slot with score at least the
threshold; and a shorter-than-`r` result is explained by a best candidate
whose score fell below the threshold. -/
theorem lasLoop_ok_props (nr nc : ℕ) (θ : ℝ) (rs : ℕ) (rng : ℕ → ℕ)
    (fuel1 fuel2 : ℕ) : ∀ (r : ℕ) (m : Mat) (pos : ℕ) (L : List Bicluster),
    lasLoop nr nc θ rs rng fuel1 fuel2 r m pos = .ok L →
    L.length ≤ r
    ∧ (∀ b ∈ L, ∃ m' pos' a s p'',
        slotBest m' nr nc rng fuel1 fuel2 rs pos' = .ok ((b, a, s), p'') ∧ θ ≤ s)
    ∧ (L.length < r → ∃ m' pos' b a s p'',
        slotBest m' nr nc rng fuel1 fuel2 rs pos' = .ok ((b, a, s), p'') ∧ s < θ) := by
  intro r
  induction r with
  | zero =>
    intro m pos L h
    simp only [lasLoop, Except.ok.injEq] at h
    subst h
    exact ⟨Nat.le_refl 0, by simp, by omega⟩
  | succ r ih =>
    intro m pos L h
    unfold lasLoop at h
    cases h1 : slotBest m nr nc rng fuel1 fuel2 rs pos with
    | error e => rw [h1] at h; simp at h
    | ok cp =>
      obtain ⟨c, pos'⟩ := cp
      obtain ⟨b, a, s⟩ := c
      rw [h1] at h
      dsimp only at h
      by_cases hs : s < θ
      · rw [if_pos hs] at h
        simp only [Except.ok.injEq] at h
        subst h
        refine ⟨by simp, by simp, fun _ => ?_⟩
        exact ⟨m, pos, b, a, s, pos', h1, hs⟩
      · rw [if_neg hs] at h
        cases h2 : lasLoop nr nc θ rs rng fuel1 fuel2 r (deflate m b.rows b.cols a) pos' with
        | error e => rw [h2] at h; simp at h
        | ok rest =>
          rw [h2] at h
          dsimp only at h
          simp only [Except.ok.injEq] at h
          subst h
          obtain ⟨ih1, ih2, ih3⟩ := ih _ _ _ h2
          refine ⟨by simpa using Nat.succ_le_succ ih1, ?_, ?_⟩
          · intro b' hb'
            rcases List.mem_cons.mp hb' with rfl | hmem
            · exact ⟨m, pos, a, s, pos', h1, not_lt.mp hs⟩
            · exact ih2 b' hmem
          · intro hlen
            exact ih3 (by simpa using Nat.lt_of_succ_lt_succ hlen)

/-- The extraction loop succeeds (returns some list) whenever both dimensions
are at least 3. -/
theorem lasLoop_isOk (nr nc : ℕ) (θ : ℝ) (rs : ℕ) (rng : ℕ → ℕ)
    (fuel1 fuel2 : ℕ) (hnr : 3 ≤ nr) (hnc : 3 ≤ nc) :
    ∀ (r : ℕ) (m : Mat) (pos : ℕ),
    ∃ L, lasLoop nr nc θ rs rng fuel1 fuel2 r m pos = .ok L := by
  intro r
  induction r with
  | zero => intro m pos; exact ⟨[], rfl⟩
  | succ r ih =>
    intro m pos
    obtain ⟨c, p', h1⟩ := slotBest_isOk m nr nc rng fuel1 fuel2 rs pos hnr hnc
    obtain ⟨b, a, s⟩ := c
    by_cases hs : s < θ
    · refine ⟨[], ?_⟩
      unfold lasLoop
      rw [h1]
      dsimp only
      rw [if_pos hs]
    · obtain ⟨rest, h2⟩ := ih (deflate m b.rows b.cols a) p'
      refine ⟨b :: rest, ?_⟩
      unfold lasLoop
      rw [h1]
      dsimp only
      rw [if_neg hs, h2]

/-- After successful validation, `run` is the extraction loop applied to the
preprocessed matrix. -/
theorem run_eq_loop (nb rs : ℤ) (θ : ℝ) (t : Bool) (scaleFn : Mat → Mat)
    (data : Mat) (nr nc : ℕ) (rng : ℕ → ℕ) (f1 f2 : ℕ)
    (hval : ¬(nb ≤ 0 ∨ rs ≤ 0)) :
    run nb rs θ t scaleFn data nr nc rng f1 f2
    = lasLoop nr nc θ rs.toNat rng f1 f2 nb.toNat
        (if t then
          scaleFn (fun r c =>
            Real.sign (scaleFn data r c) * Real.log (1 + |scaleFn data r c|))
        else scaleFn data) 0 := by
  unfold run
  rw [if_neg hval]

/-- Claim C2: for every input matrix (with dimensions admitting the draws) and
every valid configuration, `run` succeeds, returns at most `num_biclusters`
biclusters, every returned bicluster was the best candidate of its slot with
score at least `score_threshold` at the time it was accepted, and a result
shorter than `num_biclusters` is explained by a slot whose best candidate
scored strictly below the threshold (that candidate being discarded). -/
theorem run_extraction_loop (nb rs : ℤ) (θ : ℝ) (t : Bool) (scaleFn : Mat → Mat)
    (data : Mat) (nr nc : ℕ) (rng : ℕ → ℕ) (f1 f2 : ℕ)
    (hnb : 0 < nb) (hrs : 0 < rs) (hnr : 3 ≤ nr) (hnc : 3 ≤ nc) :
    (∃ L, run nb rs θ t scaleFn data nr nc rng f1 f2 = .ok L)
    ∧ (∀ L, run nb rs θ t scaleFn data nr nc rng f1 f2 = .ok L →
        L.length ≤ nb.toNat
        ∧ (∀ b ∈ L, ∃ m' pos' a s p'',
            slotBest m' nr nc rng f1 f2 rs.toNat pos' = .ok ((b, a, s), p'') ∧ θ ≤ s)
        ∧ (L.length < nb.toNat → ∃ m' pos' b a s p'',
            slotBest m' nr nc rng f1 f2 rs.toNat pos' = .ok ((b, a, s), p'') ∧ s < θ))
    ∧ (∀ (m' : Mat) (pos' : ℕ) b a s p'',
        slotBest m' nr nc rng f1 f2 rs.toNat pos' = .ok ((b, a, s), p'') → s < θ →
        ∀ r, lasLoop nr nc θ rs.toNat rng f1 f2 (r + 1) m' pos' = .ok []) := by
  have heq := run_eq_loop nb rs θ t scaleFn data nr nc rng f1 f2 (by omega)
  refine ⟨?_, ?_, ?_⟩
  · obtain ⟨L, hL⟩ := lasLoop_isOk nr nc θ rs.toNat rng f1 f2 hnr hnc nb.toNat _ 0
    exact ⟨L, heq.trans hL⟩
  · intro L hL
    rw [heq] at hL
    exact lasLoop_ok_props nr nc θ rs.toNat rng f1 f2 nb.toNat _ 0 L hL
  · intro m' pos' b a s p'' hslot hs r
    unfold lasLoop
    rw [hslot]
    dsimp only
    rw [if_pos hs]

/-- Witness for C2 at a concrete input: a `3 x 3` zero matrix, one bicluster,
one randomized search, threshold `0`. -/
theorem run_extraction_loop_witness :
    ((0 : ℤ) < 1 ∧ (0 : ℤ) < 1 ∧ (3 : ℕ) ≤ 3) ∧
    ((∃ L, run 1 1 0 false id (fun _ _ => 0) 3 3 (fun _ => 0) 1 1 = .ok L)
    ∧ (∀ L, run 1 1 0 false id (fun _ _ => 0) 3 3 (fun _ => 0) 1 1 = .ok L →
        L.length ≤ (1 : ℤ).toNat
        ∧ (∀ b ∈ L, ∃ m' pos' a s p'',
            slotBest m' 3 3 (fun _ => 0) 1 1 (1 : ℤ).toNat pos' = .ok ((b, a, s), p'')
            ∧ (0 : ℝ) ≤ s)
        ∧ (L.length < (1 : ℤ).toNat → ∃ m' pos' b a s p'',
            slotBest m' 3 3 (fun _ => 0) 1 1 (1 : ℤ).toNat pos' = .ok ((b, a, s), p'')
            ∧ s < (0 : ℝ)))
    ∧ (∀ (m' : Mat) (pos' : ℕ) b a s p'',
        slotBest m' 3 3 (fun _ => 0) 1 1 (1 : ℤ).toNat pos' = .ok ((b, a, s), p'')
        → s < (0 : ℝ) →
        ∀ r, lasLoop 3 3 0 (1 : ℤ).toNat (fun _ => 0) 1 1 (r + 1) m' pos' = .ok [])) :=
  ⟨⟨by decide, by decide, by decide⟩,
    run_extraction_loop 1 1 0 false id (fun _ _ => 0) 3 3 (fun _ => 0) 1 1
      (by decide) (by decide) (by decide) (by decide)⟩

/-- Claim C5: when the best candidate of a slot is accepted (score not below
the threshold), the matrix passed to the remaining slots is the deflated
matrix; deflation decreases exactly the entries at the candidate's row/column
index pairs by its average, once each, leaving every other entry unchanged;
and the accepted bicluster is prepended to the result of the remaining slots
computed from that deflated matrix (so deflation happens exactly once per
accepted bicluster, after its search concludes and before any later slot
reads the matrix). -/
theorem deflation_once_per_accept (nr nc : ℕ) (θ : ℝ) (rs : ℕ) (rng : ℕ → ℕ)
    (f1 f2 : ℕ) (m : Mat) (pos r : ℕ) (hnr : 3 ≤ nr) (hnc : 3 ≤ nc) :
    (∃ c p', slotBest m nr nc rng f1 f2 rs pos = .ok (c, p'))
    ∧ (∀ b a s p', slotBest m nr nc rng f1 f2 rs pos = .ok ((b, a, s), p') →
        (∀ r' c', deflate m b.rows b.cols a r' c'
            = if r' ∈ b.rows ∧ c' ∈ b.cols then m r' c' - a else m r' c')
        ∧ (¬ s < θ →
            lasLoop nr nc θ rs rng f1 f2 (r + 1) m pos
            = Except.map (fun rest => b :: rest)
                (lasLoop nr nc θ rs rng f1 f2 r (deflate m b.rows b.cols a) p'))) := by
  constructor
  · exact slotBest_isOk m nr nc rng f1 f2 rs pos hnr hnc
  · intro b a s p' h
    obtain ⟨hr, hc, _⟩ := slotBest_props m nr nc rng f1 f2 rs pos (b, a, s) p' h
    constructor
    · intro r' c'
      exact deflate_apply m b.rows b.cols a hr.1 hc.1 r' c'
    · intro hs
      conv_lhs => rw [lasLoop]
      rw [h]
      dsimp only
      rw [if_neg hs]
      cases h2 : lasLoop nr nc θ rs rng f1 f2 r (deflate m b.rows b.cols a) p' with
      | error e => rfl
      | ok rest => rfl

/-- Witness for C5 at a concrete input: a `3 x 3` zero matrix. -/
theorem deflation_once_per_accept_witness :
    ((3 : ℕ) ≤ 3) ∧
    ((∃ c p', slotBest (fun _ _ => 0) 3 3 (fun _ => 0) 1 1 1 0 = .ok (c, p'))
    ∧ (∀ b a s p', slotBest (fun _ _ => 0) 3 3 (fun _ => 0) 1 1 1 0 = .ok ((b, a, s), p') →
        (∀ r' c', deflate (fun _ _ => 0) b.rows b.cols a r' c'
            = if r' ∈ b.rows ∧ c' ∈ b.cols then (fun _ _ => (0 : ℝ)) r' c' - a
              else (fun _ _ => (0 : ℝ)) r' c')
        ∧ (¬ s < (1 : ℝ) →
            lasLoop 3 3 1 1 (fun _ => 0) 1 1 (0 + 1) (fun _ _ => 0) 0
            = Except.map (fun rest => b :: rest)
                (lasLoop 3 3 1 1 (fun _ => 0) 1 1 0 (deflate (fun _ _ => 0) b.rows b.cols a) p')))) :=
  ⟨by decide,
    deflation_once_per_accept 3 3 1 1 (fun _ => 0) 1 1 (fun _ _ => 0) 0 0
      (by decide) (by decide)⟩

/-- Claim C6: `run` raises the invalid-parameter error exactly when
`num_biclusters <= 0` or `randomized_searches <= 0`, and in that case the
result does not depend on the preprocessing function, the input matrix or the
random stream (the check happens before any preprocessing, search work or
randomness consumption); when both parameters are positive the
invalid-parameter error is never raised. -/
theorem validate_parameters_iff (nb rs : ℤ) (θ : ℝ) (t : Bool) (scaleFn : Mat → Mat)
    (data : Mat) (nr nc : ℕ) (rng : ℕ → ℕ) (f1 f2 : ℕ) :
    (run nb rs θ t scaleFn data nr nc rng f1 f2 = .error .invalidParameter
      ↔ nb ≤ 0 ∨ rs ≤ 0)
    ∧ ((nb ≤ 0 ∨ rs ≤ 0) →
        ∀ (scaleFn' : Mat → Mat) (data' : Mat) (rng' : ℕ → ℕ),
          run nb rs θ t scaleFn' data' nr nc rng' f1 f2 = .error .invalidParameter) := by
  constructor
  · constructor
    · intro h
      by_contra hval
      rw [run_eq_loop nb rs θ t scaleFn data nr nc rng f1 f2 hval] at h
      exact lasLoop_error nr nc θ rs.toNat rng f1 f2 nb.toNat _ 0 _ h rfl
    · intro hval
      unfold run
      rw [if_pos hval]
  · intro hval scaleFn' data' rng'
    unfold run
    rw [if_pos hval]

/-- Witness for C6 at concrete inputs: `num_biclusters = 0` triggers the
error, independently of the data and the random stream. -/
theorem validate_parameters_iff_witness :
    (run 0 1000 1 false id (fun _ _ => 0) 5 5 (fun _ => 0) 1 1
        = .error .invalidParameter
      ↔ (0 : ℤ) ≤ 0 ∨ (1000 : ℤ) ≤ 0)
    ∧ (((0 : ℤ) ≤ 0 ∨ (1000 : ℤ) ≤ 0) →
        ∀ (scaleFn' : Mat → Mat) (data' : Mat) (rng' : ℕ → ℕ),
          run 0 1000 1 false scaleFn' data' 5 5 rng' 1 1
            = .error .invalidParameter) :=
  validate_parameters_iff 0 1000 1 false id (fun _ _ => 0) 5 5 (fun _ => 0) 1 1

/-- Claim C7: every bicluster produced by a search attempt (constrained search
followed by refinement) has non-empty row and column index sets of distinct
indices within `[0, num_rows)` and `[0, num_cols)`; in particular the
refinement selects prefixes of length `rmax + 1 >= 1` and `cmax + 1 >= 1`
over the discarded-count-0 score tables, so a count of 0 is impossible. -/
theorem search_attempt_wellformed (data : Mat) (nr nc : ℕ) (rng : ℕ → ℕ)
    (pos f1 f2 : ℕ) (hnr : 3 ≤ nr) (hnc : 3 ≤ nc) (hf1 : 1 ≤ f1) :
    (∃ c p', find_bicluster data nr nc rng pos f1 f2 = .ok (c, p'))
    ∧ (∀ c p', find_bicluster data nr nc rng pos f1 f2 = .ok (c, p') →
        c.1.rows ≠ [] ∧ c.1.rows.Nodup ∧ (∀ i ∈ c.1.rows, i < nr)
        ∧ c.1.cols ≠ [] ∧ c.1.cols.Nodup ∧ (∀ i ∈ c.1.cols, i < nc)) := by
  constructor
  · exact find_bicluster_isOk data nr nc rng pos f1 f2 hnr hnc
  · intro c p' h
    obtain ⟨_, _, hrg, hcg, hne⟩ := find_bicluster_ok data nr nc rng pos f1 f2 c p' h
    obtain ⟨hne1, hne2⟩ := hne hf1
    exact ⟨hne1, hrg.1, hrg.2, hne2, hcg.1, hcg.2⟩

/-- Witness for C7 at a concrete input: a `3 x 3` zero matrix, zero random
stream, fuel 1. -/
theorem search_attempt_wellformed_witness :
    ((3 : ℕ) ≤ 3 ∧ (1 : ℕ) ≤ 1) ∧
    ((∃ c p', find_bicluster (fun _ _ => 0) 3 3 (fun _ => 0) 0 1 1 = .ok (c, p'))
    ∧ (∀ c p', find_bicluster (fun _ _ => 0) 3 3 (fun _ => 0) 0 1 1 = .ok (c, p') →
        c.1.rows ≠ [] ∧ c.1.rows.Nodup ∧ (∀ i ∈ c.1.rows, i < 3)
        ∧ c.1.cols ≠ [] ∧ c.1.cols.Nodup ∧ (∀ i ∈ c.1.cols, i < 3))) :=
  ⟨⟨by decide, by decide⟩,
    search_attempt_wellformed (fun _ _ => 0) 3 3 (fun _ => 0) 0 1 1
      (by decide) (by decide) (by decide)⟩

/-- With a dimension of at most 2, the constrained search errors at the size
draw (the `np.arange(1, int(np.ceil(dim / 2)))` array is empty), whatever the
matrix, the random stream or the fuel. -/
theorem find_constrained_small_dims (data : Mat) (nr nc : ℕ) (rng : ℕ → ℕ)
    (pos fuel : ℕ) (hdim : nr ≤ 2 ∨ nc ≤ 2) :
    find_constrained_bicluster data nr nc rng pos fuel = .error .emptyChoice := by
  unfold find_constrained_bicluster
  by_cases hnr2 : nr ≤ 2
  · rw [show sizeCandidates nr = [] from (sizeCandidates_eq_nil_iff nr).mpr hnr2,
      npChoice_nil]
  · have hnc2 : nc ≤ 2 := by
      rcases hdim with h | h
      · omega
      · exact h
    rw [npChoice_isOk _ _ _ (sizeCandidates_ne_nil nr (by omega))]
    dsimp only
    rw [show sizeCandidates nc = [] from (sizeCandidates_eq_nil_iff nc).mpr hnc2,
      npChoice_nil]

/-- Claim C10: with `num_rows <= 2` or `num_cols <= 2` and a valid
configuration, `run` fails before producing any bicluster: every search
attempt raises the empty-choice error at the size draw, and the error
propagates out of the extraction loop. -/
theorem run_small_dims_error (nb rs : ℤ) (θ : ℝ) (t : Bool) (scaleFn : Mat → Mat)
    (data : Mat) (nr nc : ℕ) (rng : ℕ → ℕ) (f1 f2 : ℕ)
    (hnb : 0 < nb) (hrs : 0 < rs) (hdim : nr ≤ 2 ∨ nc ≤ 2) :
    run nb rs θ t scaleFn data nr nc rng f1 f2 = .error .emptyChoice := by
  rw [run_eq_loop nb rs θ t scaleFn data nr nc rng f1 f2 (by omega)]
  obtain ⟨q, hq⟩ : ∃ q, nb.toNat = q + 1 := ⟨nb.toNat - 1, by omega⟩
  rw [hq]
  unfold lasLoop
  have hfind : find_bicluster
      (if t then
        scaleFn (fun r c =>
          Real.sign (scaleFn data r c) * Real.log (1 + |scaleFn data r c|))
      else scaleFn data) nr nc rng 0 f1 f2 = .error .emptyChoice := by
    unfold find_bicluster
    rw [find_constrained_small_dims _ _ _ _ _ _ hdim]
  unfold slotBest
  rw [hfind]

/-- Witness for C10: a `2 x 5` zero matrix with one bicluster requested and
one randomized search. -/
theorem run_small_dims_error_witness :
    ((0 : ℤ) < 1 ∧ (2 : ℕ) ≤ 2) ∧
    run 1 1 0 false id (fun _ _ => 0) 2 5 (fun _ => 0) 1 1 = .error .emptyChoice :=
  ⟨⟨by decide, by decide⟩,
    run_small_dims_error 1 1 0 false id (fun _ _ => 0) 2 5 (fun _ => 0) 1 1
      (by decide) (by decide) (Or.inl (by decide))⟩
